import Mathlib

/-!
Shallow embedding of `airmine.py` (great-circle distances between pairs of
places).  Coordinates are modelled over the real numbers; `np.arccos`, which
returns NaN outside its domain [-1, 1], is modelled as an `Option`-valued
function returning `none` there.  NaN propagation through the analysis
pipeline is modelled by the error value `AirmineError.nanValue`, and the
Python `TypeError` raised when the empty coordinate matrix is unpacked into
the distance function is modelled by `AirmineError.typeError`.
-/

/-- Earth radius using the spherical approximation, in km (`EARTH_RADIUS = 6371`). -/
noncomputable def EARTH_RADIUS : ℝ := 6371

/-- A row of the places dataframe, as produced by `df.itertuples()`:
fields `Index` (the place name), `Latitude` and `Longitude`. -/
structure Place where
  Index : String
  Latitude : ℝ
  Longitude : ℝ

instance : Inhabited Place := ⟨⟨"", 0, 0⟩⟩

/-- Concrete places used to instantiate the universally quantified theorems. -/
def placeA : Place := ⟨"A", 0, 0⟩

def placeB : Place := ⟨"B", 1, 1⟩

def placeC : Place := ⟨"C", 2, 2⟩

/-- The argument handed to `np.arccos` in `great_circle_distance`:
`sin(lat1)*sin(lat2) + cos(lat1)*cos(lat2)*cos(long1 - long2)`. -/
noncomputable def gcd_arg (lat1 long1 lat2 long2 : ℝ) : ℝ :=
  Real.sin lat1 * Real.sin lat2 +
    Real.cos lat1 * Real.cos lat2 * Real.cos (long1 - long2)

/-- `np.arccos`: defined on [-1, 1]; outside that interval numpy returns NaN,
modelled here as `none`.  The source applies it without any clamping. -/
noncomputable def np_arccos (x : ℝ) : Option ℝ :=
  if -1 ≤ x ∧ x ≤ 1 then some (Real.arccos x) else none

/-- Scalar `great_circle_distance(lat1, long1, lat2, long2)` from the source:
`EARTH_RADIUS * arccos(sin(lat1)*sin(lat2) + cos(lat1)*cos(lat2)*cos(long1-long2))`,
angles in radians. -/
noncomputable def great_circle_distance (lat1 long1 lat2 long2 : ℝ) : Option ℝ :=
  (np_arccos (gcd_arg lat1 long1 lat2 long2)).map (fun t => EARTH_RADIUS * t)

/-- Batched (numpy-broadcast) form of `great_circle_distance`: every numpy
operation of the source expression acts elementwise on the argument arrays. -/
noncomputable def great_circle_distance_batch
    (lat1 long1 lat2 long2 : List ℝ) : List (Option ℝ) :=
  ((((lat1.map Real.sin).zipWith (· * ·) (lat2.map Real.sin)).zipWith (· + ·)
      (((lat1.map Real.cos).zipWith (· * ·) (lat2.map Real.cos)).zipWith (· * ·)
        ((long1.zipWith (· - ·) long2).map Real.cos)))).map
    (fun x => (np_arccos x).map (fun t => EARTH_RADIUS * t))

/-- `generate_places(n)`: the source draws
`long, lat = np.random.rand(n) * 360 - 180, np.random.rand(n) * 180 - 90`
and then builds
`pd.DataFrame({'Name': places, 'Latitude': long, 'Longitude': lat})`,
wiring the variable `long` to the `Latitude` column and the variable `lat`
to the `Longitude` column.  The random draws `np.random.rand(n)` (uniform
in [0, 1]) are passed in explicitly as the functions `randLong`/`randLat`. -/
noncomputable def generate_places (n : ℕ) (randLong randLat : ℕ → ℝ) : List Place :=
  (List.range n).map (fun i =>
    ⟨"Place " ++ toString i, randLong i * 360 - 180, randLat i * 180 - 90⟩)

/-- `get_data(n)`: loads the CSV contents (passed in as `csv`) when `n` is
`none`, otherwise generates `n` random places. -/
noncomputable def get_data (n : Option ℕ) (randLong randLat : ℕ → ℝ)
    (csv : List Place) : List Place :=
  match n with
  | none => csv
  | some m => generate_places m randLong randLat

/-- `itertools.combinations(l, 2)`: all unordered pairs of distinct positions,
emitted in lexicographic order of the positions. -/
def combinations2 {α : Type} : List α → List (α × α)
  | [] => []
  | x :: xs => (xs.map (fun y => (x, y))) ++ combinations2 xs

/-- The canonical combinatorial order of the spec (4.3): for places in
iteration order p0..p(n-1), pairs of positions are emitted in the order
(0,1),(0,2),...,(0,n-1),(1,2),... .  Written from the spec's words, to be
compared with the order `combinations2` actually produces. -/
def canonicalIndexPairs (n : ℕ) : List (ℕ × ℕ) :=
  ((List.range n).map (fun i =>
    ((List.range n).filter (fun j => decide (i < j))).map (fun j => (i, j)))).flatten

/-- Error outcomes of the program, modelling Python exceptions / exits. -/
inductive AirmineError where
  | invalidArgument
  | typeError
  | nanValue
deriving DecidableEq

/-- `pairs_and_great_circle_distances(df)`: enumerate the pairs, build the
coordinate matrix, divide it elementwise by `180 / pi`, transpose it and feed
the four coordinate arrays to the batched distance function.  When `df` has
fewer than two rows the pair list is empty, the coordinate matrix is the
empty array, and unpacking its transpose passes zero arguments to
`great_circle_distance`: Python raises a `TypeError` at that call.

One row of the coordinate matrix
`[[p1.Latitude, p1.Longitude, p2.Latitude, p2.Longitude] for p1, p2 in pairs]`
after the elementwise division `coordinates /= (180 / np.pi)`. -/
noncomputable def degToRadRow (pq : Place × Place) : ℝ × ℝ × ℝ × ℝ :=
  (pq.1.Latitude / (180 / Real.pi), pq.1.Longitude / (180 / Real.pi),
   pq.2.Latitude / (180 / Real.pi), pq.2.Longitude / (180 / Real.pi))

noncomputable def pairs_and_great_circle_distances (df : List Place) :
    Except AirmineError (List (Place × Place) × List (Option ℝ)) :=
  let pairs := combinations2 df
  let coordinates := pairs.map degToRadRow
  if coordinates.isEmpty then .error .typeError
  else .ok (pairs,
    great_circle_distance_batch
      (coordinates.map (fun c => c.1)) (coordinates.map (fun c => c.2.1))
      (coordinates.map (fun c => c.2.2.1)) (coordinates.map (fun c => c.2.2.2)))

/-- Collapses a list of optional distances: `none` when any entry is NaN. -/
def unwrapAll {α : Type} : List (Option α) → Option (List α)
  | [] => some []
  | none :: _ => none
  | some x :: t => (unwrapAll t).map (fun r => x :: r)

/-- `np.argmin`: index of the first occurrence of the minimum value of the
array (0 on the empty list, where numpy raises instead). -/
def npArgmin {α : Type} [LinearOrder α] : List α → ℕ
  | [] => 0
  | x :: xs => if xs.all (fun y => decide (x ≤ y)) then 0 else npArgmin xs + 1

/-- The quantities `main` computes from the data: the pair list, the distance
array, `average_distance = distances.mean()` and
`closest_pair_index = np.argmin(abs(average_distance - distances))`. -/
structure MainResult where
  pairs : List (Place × Place)
  distances : List ℝ
  average_distance : ℝ
  closest_pair_index : ℕ

/-- The analysis part of `main` (lines 121-129 of the source): distances for
all pairs, their mean, and the index of the pair closest to the mean.  A NaN
distance would poison `mean` and `argmin`; this is modelled by `nanValue`
(and proved unreachable below). -/
noncomputable def run_analysis (df : List Place) : Except AirmineError MainResult :=
  match pairs_and_great_circle_distances df with
  | .error e => .error e
  | .ok (pairs, dopts) =>
    match unwrapAll dopts with
    | none => .error .nanValue
    | some ds =>
      .ok ⟨pairs, ds, ds.sum / (ds.length : ℝ),
        npArgmin (ds.map (fun d => |ds.sum / (ds.length : ℝ) - d|))⟩

/-- `main`: validates the optional command-line count `arg` (exits with the
InvalidArgument message when `arg = some n` with `n < 2`), loads the data via
`get_data`, and runs the analysis.  A CSV-loaded dataframe is not validated. -/
noncomputable def main_model (arg : Option ℤ) (randLong randLat : ℕ → ℝ)
    (csv : List Place) : Except AirmineError MainResult :=
  match arg with
  | some n =>
    if n < 2 then .error .invalidArgument
    else run_analysis (get_data (some n.toNat) randLong randLat csv)
  | none => run_analysis (get_data none randLong randLat csv)

/-! ### Basic facts about the distance formula -/

theorem gcd_arg_le_one (lat1 long1 lat2 long2 : ℝ) :
    gcd_arg lat1 long1 lat2 long2 ≤ 1 := by
  unfold gcd_arg
  rcases le_or_lt 0 (Real.cos lat1 * Real.cos lat2) with h | h
  · have hc : Real.cos lat1 * Real.cos lat2 * Real.cos (long1 - long2) ≤
        Real.cos lat1 * Real.cos lat2 * 1 :=
      mul_le_mul_of_nonneg_left (Real.cos_le_one _) h
    have hd := Real.cos_le_one (lat1 - lat2)
    rw [Real.cos_sub] at hd
    linarith
  · have hc : Real.cos lat1 * Real.cos lat2 * Real.cos (long1 - long2) ≤
        Real.cos lat1 * Real.cos lat2 * (-1) :=
      mul_le_mul_of_nonpos_left (Real.neg_one_le_cos _) h.le
    have hd := Real.neg_one_le_cos (lat1 + lat2)
    rw [Real.cos_add] at hd
    linarith

theorem neg_one_le_gcd_arg (lat1 long1 lat2 long2 : ℝ) :
    -1 ≤ gcd_arg lat1 long1 lat2 long2 := by
  unfold gcd_arg
  rcases le_or_lt 0 (Real.cos lat1 * Real.cos lat2) with h | h
  · have hc : Real.cos lat1 * Real.cos lat2 * (-1) ≤
        Real.cos lat1 * Real.cos lat2 * Real.cos (long1 - long2) :=
      mul_le_mul_of_nonneg_left (Real.neg_one_le_cos _) h
    have hd := Real.cos_le_one (lat1 + lat2)
    rw [Real.cos_add] at hd
    linarith
  · have hc : Real.cos lat1 * Real.cos lat2 * 1 ≤
        Real.cos lat1 * Real.cos lat2 * Real.cos (long1 - long2) :=
      mul_le_mul_of_nonpos_left (Real.cos_le_one _) h.le
    have hd := Real.neg_one_le_cos (lat1 - lat2)
    rw [Real.cos_sub] at hd
    linarith

/-- Over the reals the `arccos` argument always stays in its domain, so the
distance is always defined (numpy never actually produces NaN in exact
arithmetic). -/
theorem great_circle_distance_eq_some (lat1 long1 lat2 long2 : ℝ) :
    great_circle_distance lat1 long1 lat2 long2 =
      some (EARTH_RADIUS * Real.arccos (gcd_arg lat1 long1 lat2 long2)) := by
  unfold great_circle_distance np_arccos
  rw [if_pos ⟨neg_one_le_gcd_arg lat1 long1 lat2 long2,
    gcd_arg_le_one lat1 long1 lat2 long2⟩]
  rfl

theorem great_circle_distance_batch_nil (g1 l2 g2 : List ℝ) :
    great_circle_distance_batch [] g1 l2 g2 = [] := rfl

theorem great_circle_distance_batch_cons (a b c d : ℝ) (l1 g1 l2 g2 : List ℝ) :
    great_circle_distance_batch (a :: l1) (b :: g1) (c :: l2) (d :: g2) =
      great_circle_distance a b c d :: great_circle_distance_batch l1 g1 l2 g2 := rfl

theorem great_circle_distance_batch_spec (l1 : List ℝ) :
    ∀ (g1 l2 g2 : List ℝ), g1.length = l1.length → l2.length = l1.length →
      g2.length = l1.length →
      (great_circle_distance_batch l1 g1 l2 g2).length = l1.length ∧
      ∀ i, i < l1.length →
        (great_circle_distance_batch l1 g1 l2 g2).getD i none =
          great_circle_distance (l1.getD i 0) (g1.getD i 0) (l2.getD i 0) (g2.getD i 0) := by
  induction l1 with
  | nil =>
    intro g1 l2 g2 h1 h2 h3
    simp only [List.length_nil, List.length_eq_zero] at h1 h2 h3
    subst h1; subst h2; subst h3
    exact ⟨rfl, fun i hi => absurd hi (by simp)⟩
  | cons a l1 ih =>
    intro g1 l2 g2 h1 h2 h3
    cases g1 with
    | nil => simp at h1
    | cons b g1 =>
      cases l2 with
      | nil => simp at h2
      | cons c l2 =>
        cases g2 with
        | nil => simp at h3
        | cons d g2 =>
          simp only [List.length_cons, Nat.succ_inj'] at h1 h2 h3
          obtain ⟨hlen, hget⟩ := ih g1 l2 g2 h1 h2 h3
          rw [great_circle_distance_batch_cons]
          constructor
          · simp [hlen]
          · intro i hi
            cases i with
            | zero => simp
            | succ i =>
              simp only [List.getD_cons_succ]
              exact hget i (Nat.lt_of_succ_lt_succ hi)

/-! ### Facts about pair enumeration -/

theorem combinations2_length_mul_two {α : Type} (l : List α) :
    (combinations2 l).length * 2 = l.length * (l.length - 1) := by
  induction l with
  | nil => rfl
  | cons x xs ih =>
    simp only [combinations2, List.length_append, List.length_map, List.length_cons,
      Nat.add_sub_cancel]
    rw [Nat.add_mul, ih]
    cases xs with
    | nil => rfl
    | cons y ys =>
      simp only [List.length_cons, Nat.add_sub_cancel]
      ring

theorem mem_combinations2 {α : Type} (a b : α) (l : List α) :
    (a, b) ∈ combinations2 l ↔ [a, b].Sublist l := by
  induction l with
  | nil => simp [combinations2]
  | cons x xs ih =>
    simp only [combinations2, List.mem_append, List.mem_map, Prod.mk.injEq, ih,
      List.sublist_cons_iff]
    constructor
    · rintro (⟨y, hy, rfl, rfl⟩ | h)
      · exact Or.inr ⟨[y], rfl, List.singleton_sublist.mpr hy⟩
      · exact Or.inl h
    · rintro (h | ⟨r, hr, hsub⟩)
      · exact Or.inr h
      · obtain ⟨rfl, hr2⟩ := List.cons_eq_cons.mp hr
        rw [← hr2] at hsub
        exact Or.inl ⟨b, List.singleton_sublist.mp hsub, rfl, rfl⟩

theorem combinations2_no_self {α : Type} (l : List α) (h : l.Nodup) :
    ∀ p ∈ combinations2 l, p.1 ≠ p.2 := by
  intro p hp hEq
  obtain ⟨a, b⟩ := p
  have hEq' : a = b := hEq
  subst hEq'
  have hsub := (mem_combinations2 a a l).mp hp
  have hnd : ([a, a] : List α).Nodup := hsub.nodup h
  simp at hnd

theorem combinations2_nodup {α : Type} (l : List α) (h : l.Nodup) :
    (combinations2 l).Nodup := by
  induction l with
  | nil => simp [combinations2]
  | cons x xs ih =>
    rw [List.nodup_cons] at h
    simp only [combinations2, List.nodup_append]
    refine ⟨h.2.map ?_, ih h.2, ?_⟩
    · intro u v huv
      exact (Prod.ext_iff.mp huv).2
    · intro p hp hmem
      rw [List.mem_map] at hp
      obtain ⟨y, hy, hpy⟩ := hp
      obtain ⟨a, b⟩ := p
      obtain ⟨hx, hyb⟩ := Prod.ext_iff.mp hpy
      have hx' : x = a := hx
      have hyb' : y = b := hyb
      subst hx'; subst hyb'
      have hsub := (mem_combinations2 x y xs).mp hmem
      exact h.1 (hsub.subset (by simp))

theorem sublist_pair_antisymm {α : Type} (l : List α) (h : l.Nodup) (a b : α) :
    [a, b].Sublist l → [b, a].Sublist l → a = b := by
  induction l with
  | nil => intro h1; simp at h1
  | cons x xs ih =>
    rw [List.nodup_cons] at h
    intro h1 h2
    rw [List.sublist_cons_iff] at h1 h2
    rcases h1 with h1 | ⟨r1, hr1, hs1⟩ <;> rcases h2 with h2 | ⟨r2, hr2, hs2⟩
    · exact ih h.2 h1 h2
    · obtain ⟨rfl, hr2'⟩ := List.cons_eq_cons.mp hr2
      rw [← hr2'] at hs2
      exact absurd (h1.subset (by simp)) h.1
    · obtain ⟨rfl, hr1'⟩ := List.cons_eq_cons.mp hr1
      rw [← hr1'] at hs1
      exact absurd (h2.subset (by simp)) h.1
    · obtain ⟨rfl, -⟩ := List.cons_eq_cons.mp hr1
      obtain ⟨hba, -⟩ := List.cons_eq_cons.mp hr2
      exact hba.symm

theorem sublist_pair_total {α : Type} (l : List α) (a b : α)
    (ha : a ∈ l) (hb : b ∈ l) (hne : a ≠ b) :
    [a, b].Sublist l ∨ [b, a].Sublist l := by
  induction l with
  | nil => simp at ha
  | cons x xs ih =>
    rcases List.mem_cons.mp ha with h | ha'
    · subst h
      have hb' : b ∈ xs := by
        rcases List.mem_cons.mp hb with h | h
        · exact absurd h.symm hne
        · exact h
      exact Or.inl ((List.singleton_sublist.mpr hb').cons₂ a)
    · rcases List.mem_cons.mp hb with h | hb'
      · subst h
        exact Or.inr ((List.singleton_sublist.mpr ha').cons₂ b)
      · rcases ih ha' hb' with h | h
        · exact Or.inl (h.cons x)
        · exact Or.inr (h.cons x)

theorem combinations2_unordered_once {α : Type} (l : List α) (h : l.Nodup)
    (a b : α) (ha : a ∈ l) (hb : b ∈ l) (hne : a ≠ b) :
    ((a, b) ∈ combinations2 l ↔ (b, a) ∉ combinations2 l) := by
  rw [mem_combinations2, mem_combinations2]
  constructor
  · intro hab hba
    exact hne (sublist_pair_antisymm l h a b hab hba)
  · intro hnba
    rcases sublist_pair_total l a b ha hb hne with hab | hba
    · exact hab
    · exact absurd hba hnba

theorem combinations2_map {α β : Type} (f : α → β) (l : List α) :
    combinations2 (l.map f) = (combinations2 l).map (fun p => (f p.1, f p.2)) := by
  induction l with
  | nil => rfl
  | cons x xs ih =>
    simp only [List.map_cons, combinations2, ih, List.map_append, List.map_map]
    rfl

theorem range_map_getD {α : Type} (l : List α) (d : α) :
    (List.range l.length).map (fun i => l.getD i d) = l := by
  induction l with
  | nil => rfl
  | cons x xs ih =>
    rw [List.length_cons, List.range_succ_eq_map, List.map_cons, List.map_map]
    simp only [List.getD_cons_zero]
    congr 1

theorem filter_lt_zero_cons (n : ℕ) :
    (0 :: (List.range n).map Nat.succ).filter (fun j => decide (0 < j)) =
      (List.range n).map Nat.succ := by
  rw [List.filter_cons]
  have h0 : decide (0 < 0) = false := by decide
  rw [h0]
  simp only [Bool.false_eq_true, if_false]
  apply List.filter_eq_self.mpr
  intro a ha
  rw [List.mem_map] at ha
  obtain ⟨b, -, rfl⟩ := ha
  simp

theorem filter_lt_succ_cons (n i : ℕ) :
    (0 :: (List.range n).map Nat.succ).filter (fun j => decide (i + 1 < j)) =
      ((List.range n).filter (fun j => decide (i < j))).map Nat.succ := by
  rw [List.filter_cons]
  have h0 : decide (i + 1 < 0) = false := by simp
  rw [h0]
  simp only [Bool.false_eq_true, if_false]
  rw [List.filter_map]
  congr 1
  apply List.filter_congr
  intro j _
  simp [Function.comp, Nat.succ_lt_succ_iff]

theorem combinations2_range (n : ℕ) :
    combinations2 (List.range n) = canonicalIndexPairs n := by
  induction n with
  | zero => rfl
  | succ n ih =>
    rw [canonicalIndexPairs, List.range_succ_eq_map, List.map_cons,
      List.flatten_cons, combinations2, combinations2_map, ih]
    simp only [Nat.succ_eq_add_one]
    congr 1
    · rw [filter_lt_zero_cons]
    · rw [canonicalIndexPairs, List.map_flatten, List.map_map, List.map_map]
      congr 1
      apply List.map_congr_left
      intro i _
      simp only [Function.comp]
      rw [filter_lt_succ_cons, List.map_map, List.map_map]
      rfl

theorem combinations2_eq_canonical {α : Type} [Inhabited α] (l : List α) :
    combinations2 l = (canonicalIndexPairs l.length).map
      (fun ij => (l.getD ij.1 default, l.getD ij.2 default)) := by
  have h1 := combinations2_map (fun i => l.getD i default) (List.range l.length)
  rw [range_map_getD] at h1
  have h2 : combinations2 l = (combinations2 (List.range l.length)).map
      (fun p => (l.getD p.1 default, l.getD p.2 default)) := h1
  rw [h2, combinations2_range]

/-! ### Facts about the argmin and the NaN-unwrapping -/

theorem npArgmin_lt_length {α : Type} [LinearOrder α] (l : List α) (h : l ≠ []) :
    npArgmin l < l.length := by
  induction l with
  | nil => exact absurd rfl h
  | cons x xs ih =>
    rw [npArgmin]
    split
    · simp
    · rename_i hall
      have hxs : xs ≠ [] := by
        intro hnil
        subst hnil
        simp at hall
      simpa [List.length_cons] using Nat.succ_lt_succ (ih hxs)

theorem npArgmin_le {α : Type} [LinearOrder α] (l : List α) (d : α) :
    ∀ y ∈ l, l.getD (npArgmin l) d ≤ y := by
  induction l with
  | nil => intro y hy; simp at hy
  | cons x xs ih =>
    intro y hy
    rw [npArgmin]
    split
    · rename_i hall
      rw [List.all_eq_true] at hall
      rw [List.getD_cons_zero]
      rcases List.mem_cons.mp hy with h | h
      · exact le_of_eq h.symm
      · exact of_decide_eq_true (hall y h)
    · rename_i hall
      rw [List.getD_cons_succ]
      rcases List.mem_cons.mp hy with h | h
      · subst h
        rw [List.all_eq_true] at hall
        push_neg at hall
        obtain ⟨z, hz, hdz⟩ := hall
        have hzy : z < y := lt_of_not_le (fun hle => hdz (decide_eq_true hle))
        exact le_of_lt (lt_of_le_of_lt (ih z hz) hzy)
      · exact ih y h

theorem npArgmin_first {α : Type} [LinearOrder α] (l : List α) (d : α) :
    ∀ j, j < npArgmin l → l.getD (npArgmin l) d < l.getD j d := by
  induction l with
  | nil => intro j hj; simp [npArgmin] at hj
  | cons x xs ih =>
    intro j hj
    rw [npArgmin] at hj ⊢
    split at hj
    · exact absurd hj (Nat.not_lt_zero j)
    · rename_i hall
      rw [if_neg hall]
      rw [List.all_eq_true] at hall
      push_neg at hall
      obtain ⟨z, hz, hdz⟩ := hall
      have hzx : z < x := lt_of_not_le (fun hle => hdz (decide_eq_true hle))
      cases j with
      | zero =>
        rw [List.getD_cons_succ, List.getD_cons_zero]
        exact lt_of_le_of_lt (npArgmin_le xs d z hz) hzx
      | succ j =>
        rw [List.getD_cons_succ, List.getD_cons_succ]
        exact ih j (Nat.lt_of_succ_lt_succ hj)

theorem unwrapAll_length {α : Type} :
    ∀ (l : List (Option α)) (xs : List α), unwrapAll l = some xs → xs.length = l.length := by
  intro l
  induction l with
  | nil =>
    intro xs h
    rw [unwrapAll] at h
    cases h
    rfl
  | cons o t ih =>
    intro xs h
    cases o with
    | none => simp [unwrapAll] at h
    | some v =>
      rw [unwrapAll] at h
      rw [Option.map_eq_some'] at h
      obtain ⟨r, hr, hxs⟩ := h
      subst hxs
      simp [ih r hr]

theorem unwrapAll_exists {α : Type} :
    ∀ (l : List (Option α)), (∀ o ∈ l, o ≠ none) → ∃ xs, unwrapAll l = some xs := by
  intro l
  induction l with
  | nil => exact fun _ => ⟨[], rfl⟩
  | cons o t ih =>
    intro h
    cases o with
    | none => exact absurd rfl (h none (by simp))
    | some v =>
      obtain ⟨xs, hxs⟩ := ih (fun o ho => h o (List.mem_cons_of_mem _ ho))
      exact ⟨v :: xs, by rw [unwrapAll, hxs]; rfl⟩


/-! ### Pipeline helpers -/

theorem getD_map_of_lt {α β : Type} (f : α → β) (l : List α) (j : ℕ)
    (h : j < l.length) (d : β) (e : α) :
    (l.map f).getD j d = f (l.getD j e) := by
  rw [List.getD_eq_getElem _ _ (by simpa using h), List.getD_eq_getElem _ _ h,
    List.getElem_map]

theorem pairs_and_eq_ok (df : List Place)
    (hne : ((combinations2 df).map degToRadRow).isEmpty = false) :
    pairs_and_great_circle_distances df = .ok (combinations2 df,
      great_circle_distance_batch
        (((combinations2 df).map degToRadRow).map (fun c => c.1))
        (((combinations2 df).map degToRadRow).map (fun c => c.2.1))
        (((combinations2 df).map degToRadRow).map (fun c => c.2.2.1))
        (((combinations2 df).map degToRadRow).map (fun c => c.2.2.2))) := by
  rw [pairs_and_great_circle_distances]
  simp only [hne, Bool.false_eq_true, if_false]

theorem combinations2_isEmpty_false (df : List Place) (h2 : 2 ≤ df.length) :
    ((combinations2 df).map degToRadRow).isEmpty = false := by
  have hmul := combinations2_length_mul_two df
  have hge : 2 ≤ df.length * (df.length - 1) := by
    calc 2 = 2 * 1 := rfl
      _ ≤ df.length * (df.length - 1) := Nat.mul_le_mul h2 (by omega)
  have hlen1 : 1 ≤ (combinations2 df).length := by omega
  rcases hempty : combinations2 df with _ | ⟨p, t⟩
  · rw [hempty] at hlen1; simp at hlen1
  · rfl

theorem pairs_and_ok (df : List Place) (h2 : 2 ≤ df.length) :
    ∃ dopts : List (Option ℝ),
      pairs_and_great_circle_distances df = .ok (combinations2 df, dopts) ∧
      dopts.length = (combinations2 df).length ∧ ∀ o ∈ dopts, o ≠ none := by
  have hne := combinations2_isEmpty_false df h2
  obtain ⟨hblen, hbget⟩ := great_circle_distance_batch_spec
    (((combinations2 df).map degToRadRow).map (fun c => c.1))
    (((combinations2 df).map degToRadRow).map (fun c => c.2.1))
    (((combinations2 df).map degToRadRow).map (fun c => c.2.2.1))
    (((combinations2 df).map degToRadRow).map (fun c => c.2.2.2))
    (by simp) (by simp) (by simp)
  refine ⟨_, pairs_and_eq_ok df hne, ?_, ?_⟩
  · rw [hblen]; simp
  · intro o ho
    rw [List.mem_iff_getElem] at ho
    obtain ⟨i, hi, hoi⟩ := ho
    have hi' : i < (((combinations2 df).map degToRadRow).map (fun c => c.1)).length := by
      rw [hblen] at hi; exact hi
    have hval := hbget i (by simpa using hi')
    rw [List.getD_eq_getElem _ _ hi, hoi, great_circle_distance_eq_some] at hval
    rw [hval]
    simp

theorem run_analysis_eq_ok (df : List Place) (pairs : List (Place × Place))
    (dopts : List (Option ℝ)) (ds : List ℝ)
    (h1 : pairs_and_great_circle_distances df = .ok (pairs, dopts))
    (h2 : unwrapAll dopts = some ds) :
    run_analysis df = .ok ⟨pairs, ds, ds.sum / (ds.length : ℝ),
      npArgmin (ds.map (fun d => |ds.sum / (ds.length : ℝ) - d|))⟩ := by
  unfold run_analysis
  rw [h1]
  simp only [h2]

theorem run_analysis_ok (df : List Place) (h2 : 2 ≤ df.length) :
    ∃ ds : List ℝ,
      run_analysis df = .ok ⟨combinations2 df, ds, ds.sum / (ds.length : ℝ),
        npArgmin (ds.map (fun d => |ds.sum / (ds.length : ℝ) - d|))⟩ ∧
      ds.length = (combinations2 df).length := by
  obtain ⟨dopts, hok, hlen, hsome⟩ := pairs_and_ok df h2
  obtain ⟨ds, hds⟩ := unwrapAll_exists dopts hsome
  exact ⟨ds, run_analysis_eq_ok df (combinations2 df) dopts ds hok hds,
    (unwrapAll_length dopts ds hds).trans hlen⟩

/-! ### Claim theorems -/

theorem gcd_arg_symm (lat1 long1 lat2 long2 : ℝ) :
    gcd_arg lat1 long1 lat2 long2 = gcd_arg lat2 long2 lat1 long1 := by
  unfold gcd_arg
  rw [← Real.cos_neg (long1 - long2), neg_sub]
  ring

/-- C1: the claim says every generated place has latitude in [-90, 90] and
longitude in [-180, 180].  The code wires the [-180, 180] sample (variable
`long`) to the `Latitude` column and the [-90, 90] sample (variable `lat`)
to the `Longitude` column, so with the admissible random draws all equal to 1
(`np.random.rand` is uniform on [0, 1]) and n = 2, both places get
latitude 180 and longitude 90; names are still "Place 0", "Place 1". -/
theorem C1_generate_places_swapped_ranges :
    generate_places 2 (fun _ => 1) (fun _ => 1) =
      [⟨"Place 0", 180, 90⟩, ⟨"Place 1", 180, 90⟩] ∧
    ¬(-90 ≤ (180 : ℝ) ∧ (180 : ℝ) ≤ 90) ∧
    (0 : ℝ) ≤ 1 := by
  refine ⟨?_, by norm_num, by norm_num⟩
  unfold generate_places
  norm_num [List.range_succ, Place.mk.injEq]
  exact ⟨rfl, rfl⟩

/-- C2: the claim says `great_circle_distance` clamps the `acos` argument to
[-1, 1].  In exact arithmetic two identical points make the argument exactly
1 and the distance exactly 0, but the code applies `np.arccos` with no clamp:
an argument above 1 (the floating-point overshoot case the claim describes)
yields NaN (`none`), not a clamped 0. -/
theorem C2_identical_points_and_no_clamp :
    (∀ a b : ℝ, great_circle_distance a b a b = some 0) ∧
    np_arccos (1 + 1 / 1000000) = none := by
  constructor
  · intro a b
    have harg : gcd_arg a b a b = 1 := by
      unfold gcd_arg
      rw [sub_self, Real.cos_zero]
      linear_combination Real.sin_sq_add_cos_sq a
    rw [great_circle_distance_eq_some, harg, Real.arccos_one, mul_zero]
  · unfold np_arccos
    rw [if_neg]
    norm_num

/-- C3 counterexample: a PlaceSet with one place, loaded from the CSV path
(no command-line count), is not rejected with InvalidArgument: the run fails
with the TypeError raised inside the distance computation. -/
theorem C3_counterexample_csv_not_validated :
    ([({ Index := "A", Latitude := 0, Longitude := 0 } : Place)]).length < 2 ∧
    main_model none (fun _ => 0) (fun _ => 0)
      [{ Index := "A", Latitude := 0, Longitude := 0 }] =
      .error .typeError ∧
    AirmineError.typeError ≠ AirmineError.invalidArgument := by
  refine ⟨by norm_num, ?_, by decide⟩
  unfold main_model get_data run_analysis pairs_and_great_circle_distances
  simp [combinations2]

/-- C3 (amended): only the command-line count is validated: when the count
argument n is provided and n < 2, the program fails with InvalidArgument
before loading data or computing anything. -/
theorem C3_cli_count_validated (n : ℤ) (h : n < 2) (randLong randLat : ℕ → ℝ)
    (csv : List Place) :
    main_model (some n) randLong randLat csv = .error .invalidArgument := by
  show (if n < 2 then Except.error AirmineError.invalidArgument
    else run_analysis (get_data (some n.toNat) randLong randLat csv)) =
    Except.error AirmineError.invalidArgument
  rw [if_pos h]

theorem C3_cli_count_validated_witness :
    (1 : ℤ) < 2 ∧ main_model (some 1) (fun _ => 0) (fun _ => 0) [] =
      .error .invalidArgument :=
  ⟨by decide, C3_cli_count_validated 1 (by decide) (fun _ => 0) (fun _ => 0) []⟩

/-- C4 counterexample: two distinct coordinate pairs within the valid ranges
(both at the north pole, longitudes 0 and 1 radian) have distance exactly 0,
so zero distance does not imply identical coordinate pairs. -/
theorem C4_counterexample_pole :
    great_circle_distance (Real.pi / 2) 0 (Real.pi / 2) 1 = some 0 ∧
    (Real.pi / 2, (0 : ℝ)) ≠ (Real.pi / 2, (1 : ℝ)) ∧
    -(Real.pi / 2) ≤ Real.pi / 2 ∧ Real.pi / 2 ≤ Real.pi / 2 ∧
    -Real.pi ≤ (0 : ℝ) ∧ (0 : ℝ) ≤ Real.pi ∧
    -Real.pi ≤ (1 : ℝ) ∧ (1 : ℝ) ≤ Real.pi := by
  have hpi := Real.pi_gt_three
  refine ⟨?_, ?_, by linarith, le_refl _, by linarith, by linarith, by linarith,
    by linarith⟩
  · have harg : gcd_arg (Real.pi / 2) 0 (Real.pi / 2) 1 = 1 := by
      unfold gcd_arg
      rw [Real.sin_pi_div_two, Real.cos_pi_div_two]
      ring
    rw [great_circle_distance_eq_some, harg, Real.arccos_one, mul_zero]
  · intro h
    have h2 := (Prod.ext_iff.mp h).2
    norm_num at h2

/-- C4 (amended): the distance is always defined and non-negative, and it is
zero exactly when the `acos` argument equals 1, i.e. when the two coordinate
pairs denote the same point on the sphere; identical pairs always give zero,
but distinct coordinate pairs can give zero too (e.g. at the poles). -/
theorem C4_nonneg_and_zero_iff (lat1 long1 lat2 long2 : ℝ) :
    ∃ r, great_circle_distance lat1 long1 lat2 long2 = some r ∧ 0 ≤ r ∧
      (r = 0 ↔ gcd_arg lat1 long1 lat2 long2 = 1) := by
  refine ⟨EARTH_RADIUS * Real.arccos (gcd_arg lat1 long1 lat2 long2),
    great_circle_distance_eq_some lat1 long1 lat2 long2, ?_, ?_, ?_⟩
  · have hnn := Real.arccos_nonneg (gcd_arg lat1 long1 lat2 long2)
    have hR : (0 : ℝ) ≤ EARTH_RADIUS := by norm_num [EARTH_RADIUS]
    exact mul_nonneg hR hnn
  · intro h
    have hR : (EARTH_RADIUS : ℝ) ≠ 0 := by norm_num [EARTH_RADIUS]
    have h0 : Real.arccos (gcd_arg lat1 long1 lat2 long2) = 0 := by
      rcases mul_eq_zero.mp h with h | h
      · exact absurd h hR
      · exact h
    exact le_antisymm (gcd_arg_le_one lat1 long1 lat2 long2)
      (Real.arccos_eq_zero.mp h0)
  · intro h
    rw [h, Real.arccos_one, mul_zero]

/-- C8: the distance is symmetric in its two coordinate pairs. -/
theorem C8_great_circle_distance_symm (lat1 long1 lat2 long2 : ℝ) :
    great_circle_distance lat1 long1 lat2 long2 =
      great_circle_distance lat2 long2 lat1 long1 := by
  unfold great_circle_distance
  rw [gcd_arg_symm]

/-- C5: pair enumeration yields exactly n*(n-1)/2 pairs, with no self-pairs,
each unordered pair of distinct places exactly once, in the canonical
combinatorial order (0,1),(0,2),...,(1,2),... over the iteration order. -/
theorem C5_pair_enumeration (l : List Place) (h : l.Nodup) :
    (combinations2 l).length = l.length * (l.length - 1) / 2 ∧
    (∀ p ∈ combinations2 l, p.1 ≠ p.2) ∧
    (combinations2 l).Nodup ∧
    (∀ a b : Place, a ∈ l → b ∈ l → a ≠ b →
      ((a, b) ∈ combinations2 l ↔ (b, a) ∉ combinations2 l)) ∧
    combinations2 l = (canonicalIndexPairs l.length).map
      (fun ij => (l.getD ij.1 default, l.getD ij.2 default)) := by
  refine ⟨?_, combinations2_no_self l h, combinations2_nodup l h,
    fun a b ha hb hne => combinations2_unordered_once l h a b ha hb hne,
    combinations2_eq_canonical l⟩
  have := combinations2_length_mul_two l
  omega

theorem C5_pair_enumeration_witness :
    ([placeA, placeB, placeC] : List Place).Nodup ∧
    ((combinations2 [placeA, placeB, placeC]).length =
      ([placeA, placeB, placeC] : List Place).length *
        (([placeA, placeB, placeC] : List Place).length - 1) / 2 ∧
    (∀ p ∈ combinations2 [placeA, placeB, placeC], p.1 ≠ p.2) ∧
    (combinations2 [placeA, placeB, placeC]).Nodup ∧
    (∀ a b : Place, a ∈ ([placeA, placeB, placeC] : List Place) →
      b ∈ ([placeA, placeB, placeC] : List Place) → a ≠ b →
      ((a, b) ∈ combinations2 [placeA, placeB, placeC] ↔
        (b, a) ∉ combinations2 [placeA, placeB, placeC])) ∧
    combinations2 [placeA, placeB, placeC] =
      (canonicalIndexPairs ([placeA, placeB, placeC] : List Place).length).map
        (fun ij => (([placeA, placeB, placeC] : List Place).getD ij.1 default,
          ([placeA, placeB, placeC] : List Place).getD ij.2 default))) := by
  have hnd : ([placeA, placeB, placeC] : List Place).Nodup := by
    norm_num [placeA, placeB, placeC, List.nodup_cons, Place.mk.injEq]
  exact ⟨hnd, C5_pair_enumeration [placeA, placeB, placeC] hnd⟩

/-- C6: the closest-pair index is the first index minimizing the absolute
difference between the average and the distance (stable argmin, ties broken
by first occurrence in enumeration order). -/
theorem C6_closest_pair_index (avg : ℝ) (ds : List ℝ) (h : ds ≠ []) :
    npArgmin (ds.map (fun d => |avg - d|)) < ds.length ∧
    (∀ j, j < ds.length →
      |avg - ds.getD (npArgmin (ds.map (fun d => |avg - d|))) 0| ≤
        |avg - ds.getD j 0|) ∧
    (∀ j, j < ds.length →
      |avg - ds.getD j 0| = |avg - ds.getD (npArgmin (ds.map (fun d => |avg - d|))) 0| →
      npArgmin (ds.map (fun d => |avg - d|)) ≤ j) := by
  have hmapne : ds.map (fun d => |avg - d|) ≠ [] := by
    intro hx
    exact h (List.map_eq_nil_iff.mp hx)
  have hlen : (ds.map (fun d => |avg - d|)).length = ds.length :=
    List.length_map _ _
  have hi : npArgmin (ds.map (fun d => |avg - d|)) < ds.length := by
    rw [← hlen]
    exact npArgmin_lt_length _ hmapne
  refine ⟨hi, ?_, ?_⟩
  · intro j hj
    have hmem : (ds.map (fun d => |avg - d|)).getD j 0 ∈
        ds.map (fun d => |avg - d|) := by
      rw [List.getD_eq_getElem _ _ (by rw [hlen]; exact hj)]
      exact List.getElem_mem _
    have hle := npArgmin_le (ds.map (fun d => |avg - d|)) 0 _ hmem
    rw [getD_map_of_lt (fun d => |avg - d|) ds _ hi 0 0,
      getD_map_of_lt (fun d => |avg - d|) ds _ hj 0 0] at hle
    exact hle
  · intro j hj heq
    by_contra hnot
    push_neg at hnot
    have hstrict := npArgmin_first (ds.map (fun d => |avg - d|)) 0 j hnot
    rw [getD_map_of_lt (fun d => |avg - d|) ds _ hi 0 0,
      getD_map_of_lt (fun d => |avg - d|) ds _ hj 0 0] at hstrict
    rw [heq] at hstrict
    exact lt_irrefl _ hstrict

theorem C6_closest_pair_index_witness :
    ([2, 1] : List ℝ) ≠ [] ∧
    (npArgmin (([2, 1] : List ℝ).map (fun d => |(0 : ℝ) - d|)) <
      ([2, 1] : List ℝ).length ∧
    (∀ j, j < ([2, 1] : List ℝ).length →
      |(0 : ℝ) - ([2, 1] : List ℝ).getD
          (npArgmin (([2, 1] : List ℝ).map (fun d => |(0 : ℝ) - d|))) 0| ≤
        |(0 : ℝ) - ([2, 1] : List ℝ).getD j 0|) ∧
    (∀ j, j < ([2, 1] : List ℝ).length →
      |(0 : ℝ) - ([2, 1] : List ℝ).getD j 0| =
        |(0 : ℝ) - ([2, 1] : List ℝ).getD
          (npArgmin (([2, 1] : List ℝ).map (fun d => |(0 : ℝ) - d|))) 0| →
      npArgmin (([2, 1] : List ℝ).map (fun d => |(0 : ℝ) - d|)) ≤ j)) :=
  ⟨by simp, C6_closest_pair_index 0 [2, 1] (by simp)⟩

/-- C7: the batched evaluation returns one distance per index and each entry
equals the scalar evaluation applied to the inputs at that index. -/
theorem C7_batch_eq_scalar (lat1 long1 lat2 long2 : List ℝ)
    (h1 : long1.length = lat1.length) (h2 : lat2.length = lat1.length)
    (h3 : long2.length = lat1.length) :
    (great_circle_distance_batch lat1 long1 lat2 long2).length = lat1.length ∧
    ∀ i, i < lat1.length →
      (great_circle_distance_batch lat1 long1 lat2 long2).getD i none =
        great_circle_distance (lat1.getD i 0) (long1.getD i 0)
          (lat2.getD i 0) (long2.getD i 0) :=
  great_circle_distance_batch_spec lat1 long1 lat2 long2 h1 h2 h3

theorem C7_batch_eq_scalar_witness :
    ([2] : List ℝ).length = ([1] : List ℝ).length ∧
    ([3] : List ℝ).length = ([1] : List ℝ).length ∧
    ([4] : List ℝ).length = ([1] : List ℝ).length ∧
    ((great_circle_distance_batch [1] [2] [3] [4]).length =
      ([1] : List ℝ).length ∧
    ∀ i, i < ([1] : List ℝ).length →
      (great_circle_distance_batch [1] [2] [3] [4]).getD i none =
        great_circle_distance (([1] : List ℝ).getD i 0) (([2] : List ℝ).getD i 0)
          (([3] : List ℝ).getD i 0) (([4] : List ℝ).getD i 0)) :=
  ⟨rfl, rfl, rfl, C7_batch_eq_scalar [1] [2] [3] [4] rfl rfl rfl⟩

/-- C9: for every PlaceSet of at least 2 places the analysis succeeds, its
average is the arithmetic mean of the distances of all enumerated pairs
(index-aligned, one distance per pair), and for a two-place PlaceSet there is
exactly one pair, the closest-pair index is 0 and the average equals that
single distance. -/
theorem C9_average_is_mean_and_two_place (df : List Place) (h2 : 2 ≤ df.length) :
    ∃ r : MainResult, run_analysis df = .ok r ∧
      r.pairs = combinations2 df ∧
      r.distances.length = r.pairs.length ∧
      r.average_distance = r.distances.sum / (r.distances.length : ℝ) ∧
      ∀ p1 p2 : Place, df = [p1, p2] →
        r.pairs = [(p1, p2)] ∧ r.closest_pair_index = 0 ∧
        r.distances.length = 1 ∧ r.average_distance = r.distances.getD 0 0 := by
  obtain ⟨ds, hok, hlen⟩ := run_analysis_ok df h2
  refine ⟨_, hok, rfl, hlen, rfl, ?_⟩
  intro p1 p2 hdf
  subst hdf
  have hc : combinations2 [p1, p2] = [(p1, p2)] := rfl
  have hlen1 : ds.length = 1 := by rw [hlen, hc]; rfl
  obtain ⟨d, rfl⟩ := List.length_eq_one.mp hlen1
  refine ⟨hc, rfl, rfl, ?_⟩
  show [d].sum / ((([d] : List ℝ).length : ℕ) : ℝ) = ([d] : List ℝ).getD 0 0
  simp

theorem C9_average_is_mean_and_two_place_witness :
    2 ≤ ([placeA, placeB] : List Place).length ∧
    (∃ r : MainResult, run_analysis [placeA, placeB] = .ok r ∧
      r.pairs = combinations2 [placeA, placeB] ∧
      r.distances.length = r.pairs.length ∧
      r.average_distance = r.distances.sum / (r.distances.length : ℝ) ∧
      ∀ p1 p2 : Place, ([placeA, placeB] : List Place) = [p1, p2] →
        r.pairs = [(p1, p2)] ∧ r.closest_pair_index = 0 ∧
        r.distances.length = 1 ∧ r.average_distance = r.distances.getD 0 0) :=
  ⟨by norm_num, C9_average_is_mean_and_two_place [placeA, placeB] (by norm_num)⟩

/-- C10: the pair/distance computation returns the pairs built from the
unmodified input places: the radian conversion happens on a separate copy of
the coordinates, and every place inside the returned pairs is a member of the
input PlaceSet with its original degree coordinates. -/
theorem C10_pairs_carry_original_places (df : List Place) (h2 : 2 ≤ df.length) :
    ∃ pairs dopts, pairs_and_great_circle_distances df = .ok (pairs, dopts) ∧
      pairs = combinations2 df ∧
      ∀ pq ∈ pairs, pq.1 ∈ df ∧ pq.2 ∈ df := by
  obtain ⟨dopts, hok, -, -⟩ := pairs_and_ok df h2
  refine ⟨combinations2 df, dopts, hok, rfl, ?_⟩
  intro pq hpq
  obtain ⟨a, b⟩ := pq
  have hsub := (mem_combinations2 a b df).mp hpq
  exact ⟨hsub.subset (by simp), hsub.subset (by simp)⟩

theorem C10_pairs_carry_original_places_witness :
    2 ≤ ([placeA, placeB] : List Place).length ∧
    (∃ pairs dopts,
      pairs_and_great_circle_distances [placeA, placeB] = .ok (pairs, dopts) ∧
      pairs = combinations2 [placeA, placeB] ∧
      ∀ pq ∈ pairs, pq.1 ∈ ([placeA, placeB] : List Place) ∧
        pq.2 ∈ ([placeA, placeB] : List Place)) :=
  ⟨by norm_num, C10_pairs_carry_original_places [placeA, placeB] (by norm_num)⟩
